import Mathlib

/-!
Verification of the cheque-processing review frontend.

The definitions below are a shallow embedding of the TypeScript sources:
JavaScript numbers carrying confidences are modelled as rationals, optional
object properties as `Option`, and JS objects / `Record`s as association
lists or functions into `Option`.  Each definition's doc comment names the
source function it embeds.
-/

namespace Ocr2

/-- Embeds `ValidationInfo` from the frontend review types:
`{ ok: boolean, code?: string }`. -/
structure ValidationInfo where
  ok : Bool
  code : Option String
deriving DecidableEq, Repr

/-- Embeds `FieldRecord` from the frontend review types.  All numeric fields
are rationals in place of JS numbers (decimal literals become exact
rationals, written with `mkRat` so that they evaluate); properties that the
runtime may omit (every property is read defensively in the components) are
`Option`. -/
structure FieldRecord where
  field_conf : Option ℚ
  loc_conf : Option ℚ
  ocr_conf : Option ℚ
  parse_ok : Option Bool
  parse_norm : Option String
  ocr_text : Option String
  ocr_lang : Option String
  meets_threshold : Option Bool
  validation : Option ValidationInfo
deriving DecidableEq, Repr

/-- Embeds the `low` classification in `ReviewFields.tsx`:
`typeof rec.meets_threshold === 'boolean' ? !rec.meets_threshold : (rec.field_conf ?? 0) < threshold`. -/
def low (rec : FieldRecord) (threshold : ℚ) : Bool :=
  match rec.meets_threshold with
  | some b => !b
  | none => decide (rec.field_conf.getD 0 < threshold)

/-- Embeds the `meets` computation inside `orderedKeys` in the review page
`[chequeId].tsx`:
`typeof rec.meets_threshold === 'boolean' ? rec.meets_threshold : (rec.field_conf ?? 0) >= threshold`. -/
def meets (rec : FieldRecord) (threshold : ℚ) : Bool :=
  match rec.meets_threshold with
  | some b => b
  | none => decide (rec.field_conf.getD 0 ≥ threshold)

/-- Embeds the page-level constant `const threshold = 0.995` in `[chequeId].tsx`. -/
def pageThreshold : ℚ := mkRat 995 1000

/-- Embeds the fill colour of `ConfBar` in `ReviewFields.tsx`:
`conf >= 0.995 ? '#16a34a' : '#f59e0b'` (note: the literal `0.995`, not
the `threshold` prop). -/
def confBarColor (conf : ℚ) : String :=
  if conf ≥ mkRat 995 1000 then "#16a34a" else "#f59e0b"

/-- A field record with no `meets_threshold` flag, confidence 0.999, and a
failed validation: used to compare the code's classification with the
spec's. -/
def recValidFail : FieldRecord where
  field_conf := some (mkRat 999 1000)
  loc_conf := some 1
  ocr_conf := some (mkRat 999 1000)
  parse_ok := some true
  parse_norm := some "2025-12-31"
  ocr_text := some "31/Dec/2025"
  ocr_lang := some "en"
  meets_threshold := none
  validation := some { ok := false, code := some "DATE_IMPLAUSIBLE" }

/-- C1 counterexample: a field record with `field_conf = 0.999 ≥ 0.995` whose
validation failed (`validation.ok = false`) and whose `meets_threshold` flag
is absent is classified by the code as meeting the threshold (`meets = true`,
`low = false`), while the claim says a field with a failed validation never
meets the threshold and is low-confidence. -/
theorem c1_counterexample :
    mkRat 995 1000 ≤ recValidFail.field_conf.getD 0 ∧
    (recValidFail.validation.getD { ok := true, code := none }).ok = false ∧
    meets recValidFail pageThreshold = true ∧
    low recValidFail pageThreshold = false := by
  decide

/-- C1 (amended): at the review frontend a field meets the threshold iff its
`meets_threshold` flag is `true` when the flag is present, and otherwise iff
`field_conf ≥ T`; the validation result does not enter the classification.
The `ReviewFields` low-confidence marking is exactly the negation of the
page's meets-threshold computation. -/
theorem c1_meets_characterization (rec : FieldRecord) (t : ℚ) :
    (meets rec t = true ↔
      (rec.meets_threshold = some true ∨
        (rec.meets_threshold = none ∧ t ≤ rec.field_conf.getD 0))) ∧
    low rec t = !meets rec t := by
  unfold meets low
  rcases h : rec.meets_threshold with _ | b
  · simp only [ge_iff_le, decide_eq_true_eq, ← decide_not, decide_eq_decide, not_le]
    simp
  · cases b <;> simp

/-- C3: with the `meets_threshold` flag absent and the field confidence fixed,
the meets-threshold classification is antitone in the threshold: a field that
meets the threshold at `t2` also meets it at any `t1 ≤ t2`. -/
theorem c3_threshold_antitone (rec : FieldRecord) (t1 t2 : ℚ)
    (hflag : rec.meets_threshold = none) (h12 : t1 ≤ t2)
    (h2 : meets rec t2 = true) : meets rec t1 = true := by
  unfold meets at *
  rw [hflag] at h2 ⊢
  simp only [ge_iff_le, decide_eq_true_eq] at h2 ⊢
  exact le_trans h12 h2

/-- A flagless field record at confidence 0.999, for instantiating the
threshold-antitonicity theorem. -/
def recHighConf : FieldRecord where
  field_conf := some (mkRat 999 1000)
  loc_conf := some 1
  ocr_conf := some (mkRat 999 1000)
  parse_ok := some true
  parse_norm := some "11637506"
  ocr_text := some "11637506"
  ocr_lang := some "en"
  meets_threshold := none
  validation := some { ok := true, code := some "OK" }

theorem c3_threshold_antitone_witness :
    recHighConf.meets_threshold = none ∧ mkRat 1 2 ≤ mkRat 995 1000 ∧
    meets recHighConf (mkRat 995 1000) = true ∧
    meets recHighConf (mkRat 1 2) = true :=
  ⟨by decide, by decide, by decide,
    c3_threshold_antitone recHighConf (mkRat 1 2) (mkRat 995 1000) (by decide)
      (by decide) (by decide)⟩

/-- A flagless field record at confidence 0.993: with the threshold
configured at 0.99 it meets the threshold, yet its confidence bar stays
amber because the bar colour compares against the literal 0.995. -/
def recBar : FieldRecord where
  field_conf := some (mkRat 993 1000)
  loc_conf := some 1
  ocr_conf := some (mkRat 993 1000)
  parse_ok := some true
  parse_norm := some "817410.00"
  ocr_text := some "817,410.00"
  ocr_lang := some "en"
  meets_threshold := none
  validation := some { ok := true, code := some "OK" }

/-- C7 counterexample: with the threshold configured to 0.99, the field at
confidence 0.993 is not low-confidence (the classification does follow the
configured threshold), but its confidence bar is amber, not green: the bar
colour follows the hard-coded literal 0.995, not the configured threshold.
The embedded `confBarColor` has no threshold parameter at all, mirroring
`ConfBar`, which receives only `conf`. -/
theorem c7_counterexample :
    low recBar (mkRat 99 100) = false ∧
    mkRat 99 100 ≤ recBar.field_conf.getD 0 ∧
    confBarColor (recBar.field_conf.getD 0) = "#f59e0b" ∧
    confBarColor (recBar.field_conf.getD 0) ≠ "#16a34a" := by
  refine ⟨by decide, by decide, by decide, ?_⟩
  decide

/-- C7 (amended): the low-confidence classification does vary with the
configured threshold (for a flagless record it is exactly
`field_conf < threshold`), but the green/amber bar colour is a function of
the confidence alone with the fixed cutoff 0.995; it does not take the
configured threshold into account. -/
theorem c7_classification_vs_bar (rec : FieldRecord) (t : ℚ)
    (hflag : rec.meets_threshold = none) :
    low rec t = decide (rec.field_conf.getD 0 < t) ∧
    confBarColor (rec.field_conf.getD 0) =
      (if mkRat 995 1000 ≤ rec.field_conf.getD 0 then "#16a34a"
       else "#f59e0b") := by
  constructor
  · unfold low; rw [hflag]
  · simp [confBarColor, ge_iff_le]

theorem c7_classification_vs_bar_witness :
    low recBar (mkRat 99 100) =
      decide (recBar.field_conf.getD 0 < mkRat 99 100) ∧
    confBarColor (recBar.field_conf.getD 0) =
      (if mkRat 995 1000 ≤ recBar.field_conf.getD 0 then "#16a34a"
       else "#f59e0b") :=
  c7_classification_vs_bar recBar (mkRat 99 100) (by decide)

/-- Embeds `Decision` from the frontend review types. -/
structure Decision where
  decision : String
  stp : Bool
  overall_conf : ℚ
  low_conf_fields : List String
  reasons : List String
deriving DecidableEq, Repr

/-- Embeds `ReviewItem` from the frontend review types; the `fields`
`Record` is kept as an association list in object-literal insertion order. -/
structure ReviewItem where
  bank : String
  file : String
  decision : Decision
  fields : List (String × FieldRecord)
  imageUrl : Option String
deriving DecidableEq, Repr

/-- Embeds the `date` field of the mock review item in
`frontend/src/utils/api.ts` (`getReviewItem`). -/
def dateField : FieldRecord where
  field_conf := some (mkRat 986 1000)
  loc_conf := some (mkRat 999 1000)
  ocr_conf := some (mkRat 986 1000)
  validation := some { ok := true, code := some "OK" }
  parse_ok := some true
  parse_norm := some "2025-12-31"
  ocr_text := some "31/Dec/2025"
  ocr_lang := some "en"
  meets_threshold := some false

/-- Embeds the `cheque_number` field of the mock review item. -/
def chequeNumberField : FieldRecord where
  field_conf := some (mkRat 946 1000)
  loc_conf := some (mkRat 957 1000)
  ocr_conf := some (mkRat 989 1000)
  validation := some { ok := true, code := some "OK" }
  parse_ok := some true
  parse_norm := some "11637506"
  ocr_text := some "11637506"
  ocr_lang := some "en"
  meets_threshold := some false

/-- Embeds the `amount_numeric` field of the mock review item. -/
def amountNumericField : FieldRecord where
  field_conf := some 1
  loc_conf := some 1
  ocr_conf := some 1
  validation := some { ok := true, code := some "OK" }
  parse_ok := some true
  parse_norm := some "817410.00"
  ocr_text := some "817,410.00"
  ocr_lang := some "en"
  meets_threshold := some true

/-- Embeds the `name` field of the mock review item. -/
def nameField : FieldRecord where
  field_conf := some (mkRat 93 100)
  loc_conf := some (mkRat 989 1000)
  ocr_conf := some (mkRat 94 100)
  validation := some { ok := true, code := some "OK" }
  parse_ok := some true
  parse_norm := some "شركة بالم هيلز للتعمير"
  ocr_text := some "شركة بالم هيلز للتعمير"
  ocr_lang := some "ar"
  meets_threshold := some false

/-- Embeds the `decision` object of the mock review item. -/
def stubDecision : Decision where
  decision := "review"
  stp := false
  overall_conf := mkRat 93 100
  low_conf_fields := ["date", "cheque_number", "name"]
  reasons :=
    ["low_confidence:date:0.986<thr0.995",
     "low_confidence:cheque_number:0.946<thr0.995",
     "low_confidence:name:0.930<thr0.995"]

/-- Embeds the stubbed `getReviewItem` of `frontend/src/utils/api.ts`
(the simulated latency is pure time and is not modelled). -/
def getReviewItem (chequeId : String) : ReviewItem where
  bank := "FABMISR"
  file := chequeId
  decision := stubDecision
  fields :=
    [("date", dateField), ("cheque_number", chequeNumberField),
     ("amount_numeric", amountNumericField), ("name", nameField)]
  imageUrl := none

/-- Stated from the spec text (for comparison with the stored values): the
conjunctive field-confidence model
`field_confidence = locator_confidence × recognition_confidence × parse_confidence`,
with binary parse confidence, rounded to three decimal places. -/
def specFieldConf (rec : FieldRecord) : ℚ :=
  (round (rec.loc_conf.getD 0 * rec.ocr_conf.getD 0 *
    (if rec.parse_ok.getD false then 1 else 0) * 1000) : ℤ) / 1000

/-- C2 counterexample: the `date` field of the review item returned by
`getReviewItem` has `field_conf = 0.986` (equal to its `ocr_conf`), but the
conjunctive product `loc_conf × ocr_conf × 1 = 0.999 × 0.986 = 0.985014`
rounds to `0.985`, so the claimed formula fails on this field. -/
theorem c2_counterexample :
    dateField.field_conf.getD 0 ≠ specFieldConf dateField ∧
    ("date", dateField) ∈ (getReviewItem "CHQ-001").fields := by
  constructor
  · norm_num [dateField, specFieldConf, round_eq,
      Rat.mkRat_eq_divInt, Rat.divInt_eq_div]
  · simp [getReviewItem]

/-- C2 (amended): in the review item returned by `getReviewItem`, the fields
`cheque_number`, `amount_numeric` and `name` satisfy
`field_conf = round3 (loc_conf × ocr_conf × (1 if parse_ok else 0))`, but the
`date` field does not: its stored `field_conf` is `0.986` — its `ocr_conf` —
while the rounded product is `0.985`. -/
theorem c2_product_model :
    chequeNumberField.field_conf.getD 0 = specFieldConf chequeNumberField ∧
    amountNumericField.field_conf.getD 0 = specFieldConf amountNumericField ∧
    nameField.field_conf.getD 0 = specFieldConf nameField ∧
    dateField.field_conf.getD 0 ≠ specFieldConf dateField ∧
    dateField.field_conf = dateField.ocr_conf := by
  refine ⟨?_, ?_, ?_, ?_, by decide⟩ <;>
    norm_num [chequeNumberField, amountNumericField, nameField, dateField,
      specFieldConf, round_eq, Rat.mkRat_eq_divInt, Rat.divInt_eq_div]

/-- Left-pads a three-digit fractional part with zeroes. -/
def pad3 (n : Nat) : String :=
  if n < 10 then "00" ++ toString n
  else if n < 100 then "0" ++ toString n
  else toString n

/-- Renders a confidence that is an exact multiple of 1/1000 with three
decimal places, as the reason codes of the mock decision render them
(0.93 is rendered "0.930"). -/
def confTo3dp (q : ℚ) : String :=
  let n := (mkRat (q.num * 1000) q.den).num.toNat
  toString (n / 1000) ++ "." ++ pad3 (n % 1000)

/-- The reason-code shape claimed for low-confidence causes:
`low_confidence:<field>:<confidence><thr0.995`. -/
def lowConfReason (name : String) (rec : FieldRecord) : String :=
  "low_confidence:" ++ name ++ ":" ++ confTo3dp (rec.field_conf.getD 0) ++
    "<thr0.995"

/-- C5: in the review item returned by `getReviewItem`, `low_conf_fields` is
exactly the list of field names whose `meets_threshold` is `false`, and
`reasons` is exactly one `low_confidence:<field>:<field_conf><thr0.995` entry
per such field — with the confidence rendered to three decimal places — and
nothing else. -/
theorem c5_reason_codes (chequeId : String) :
    (getReviewItem chequeId).decision.low_conf_fields =
      (((getReviewItem chequeId).fields.filter
        (fun p => p.2.meets_threshold == some false)).map (fun p => p.1)) ∧
    (getReviewItem chequeId).decision.reasons =
      (((getReviewItem chequeId).fields.filter
        (fun p => p.2.meets_threshold == some false)).map
        (fun p => lowConfReason p.1 p.2)) := by
  exact ⟨rfl, rfl⟩

/-- Embeds one edit application inside the `fieldsWithEdits` memo of
`[chequeId].tsx`: `cloned[k].parse_norm = String(v)` and, when
`cloned[k].ocr_lang === 'ar'`, also `cloned[k].ocr_text = String(v)`. -/
def applyEdit (v : String) (rec : FieldRecord) : FieldRecord :=
  { rec with
    parse_norm := some v
    ocr_text := if rec.ocr_lang == some "ar" then some v else rec.ocr_text }

/-- Embeds `fieldsWithEdits` of `[chequeId].tsx`: a deep clone of
`item.fields` with each entry of `edits` applied in iteration order; an edit
whose key names no existing field is a no-op.  The fields `Record` is
modelled as a function into `Option`. -/
def fieldsWithEdits (fields : String → Option FieldRecord)
    (edits : List (String × String)) : String → Option FieldRecord :=
  edits.foldl
    (fun acc kv name =>
      if name = kv.1 then (acc kv.1).map (applyEdit kv.2) else acc name)
    fields

/-- The parts of a field record that applying corrections must leave alone:
all three confidences, the validation result, the parse flag, the language
tag, the threshold flag — and the OCR text whenever the field is not
Arabic-tagged. -/
def PreservesMeta (a b : FieldRecord) : Prop :=
  a.field_conf = b.field_conf ∧ a.loc_conf = b.loc_conf ∧
  a.ocr_conf = b.ocr_conf ∧ a.validation = b.validation ∧
  a.parse_ok = b.parse_ok ∧ a.ocr_lang = b.ocr_lang ∧
  a.meets_threshold = b.meets_threshold ∧
  (b.ocr_lang ≠ some "ar" → a.ocr_text = b.ocr_text)

theorem preservesMeta_rfl (a : FieldRecord) : PreservesMeta a a :=
  ⟨rfl, rfl, rfl, rfl, rfl, rfl, rfl, fun _ => rfl⟩

theorem preservesMeta_trans {a b c : FieldRecord}
    (h1 : PreservesMeta a b) (h2 : PreservesMeta b c) : PreservesMeta a c := by
  obtain ⟨e1, e2, e3, e4, e5, e6, e7, e8⟩ := h1
  obtain ⟨f1, f2, f3, f4, f5, f6, f7, f8⟩ := h2
  exact ⟨e1.trans f1, e2.trans f2, e3.trans f3, e4.trans f4, e5.trans f5,
    e6.trans f6, e7.trans f7,
    fun h => (e8 (f6 ▸ h)).trans (f8 h)⟩

theorem applyEdit_preservesMeta (v : String) (rec : FieldRecord) :
    PreservesMeta (applyEdit v rec) rec := by
  refine ⟨rfl, rfl, rfl, rfl, rfl, rfl, rfl, fun h => ?_⟩
  simp only [applyEdit]
  rw [if_neg]
  simp only [beq_iff_eq]
  exact h

theorem fieldsWithEdits_untouched (edits : List (String × String)) :
    ∀ (fields : String → Option FieldRecord) (name : String),
      name ∉ edits.map Prod.fst →
      fieldsWithEdits fields edits name = fields name := by
  induction edits with
  | nil => intro fields name _; rfl
  | cons kv rest ih =>
    intro fields name hn
    simp only [List.map_cons, List.mem_cons, not_or] at hn
    have hstep :
        fieldsWithEdits fields (kv :: rest) name =
          fieldsWithEdits
            (fun n => if n = kv.1 then (fields kv.1).map (applyEdit kv.2)
                      else fields n)
            rest name := rfl
    rw [hstep, ih _ name hn.2]
    exact if_neg hn.1

theorem fieldsWithEdits_meta (edits : List (String × String)) :
    ∀ (fields : String → Option FieldRecord) (name : String)
      (rec' : FieldRecord),
      fieldsWithEdits fields edits name = some rec' →
      ∃ rec, fields name = some rec ∧ PreservesMeta rec' rec := by
  induction edits with
  | nil =>
    intro fields name rec' h
    exact ⟨rec', h, preservesMeta_rfl rec'⟩
  | cons kv rest ih =>
    intro fields name rec' h
    obtain ⟨rec1, hrec1, hp⟩ := ih _ name rec' h
    by_cases hn : name = kv.1
    · subst hn
      have hrec2 :
          (if kv.1 = kv.1 then (fields kv.1).map (applyEdit kv.2)
           else fields kv.1) = some rec1 := hrec1
      rw [if_pos rfl] at hrec2
      cases hf : fields kv.1 with
      | none => rw [hf] at hrec2; simp at hrec2
      | some rec0 =>
        rw [hf] at hrec2
        simp only [Option.map_some'] at hrec2
        obtain rfl : applyEdit kv.2 rec0 = rec1 := Option.some.inj hrec2
        exact ⟨rec0, rfl,
          preservesMeta_trans hp (applyEdit_preservesMeta kv.2 rec0)⟩
    · have hrec2 :
          (if name = kv.1 then (fields kv.1).map (applyEdit kv.2)
           else fields name) = some rec1 := hrec1
      rw [if_neg hn] at hrec2
      exact ⟨rec1, hrec2, hp⟩

/-- C4: applying corrections touches only the corrected fields.  A field
whose name is not an edit key is returned unchanged, and an edited field
keeps its three confidences, validation result, parse flag, language tag and
threshold flag — and, unless it is Arabic-tagged, its OCR text — so only
`parse_norm` (and `ocr_text` for ``ar`` fields) can change. -/
theorem c4_correction_isolates (fields : String → Option FieldRecord)
    (edits : List (String × String)) (name : String) :
    (name ∉ edits.map Prod.fst →
      fieldsWithEdits fields edits name = fields name) ∧
    (∀ rec', fieldsWithEdits fields edits name = some rec' →
      ∃ rec, fields name = some rec ∧
        rec'.field_conf = rec.field_conf ∧ rec'.loc_conf = rec.loc_conf ∧
        rec'.ocr_conf = rec.ocr_conf ∧ rec'.validation = rec.validation ∧
        rec'.parse_ok = rec.parse_ok ∧ rec'.ocr_lang = rec.ocr_lang ∧
        rec'.meets_threshold = rec.meets_threshold ∧
        (rec.ocr_lang ≠ some "ar" → rec'.ocr_text = rec.ocr_text)) :=
  ⟨fun h => fieldsWithEdits_untouched edits fields name h,
   fun rec' h => fieldsWithEdits_meta edits fields name rec' h⟩

/-- A concrete two-field record set for instantiating the frame theorem. -/
def exFields : String → Option FieldRecord := fun name =>
  if name = "date" then some dateField
  else if name = "amount_numeric" then some amountNumericField
  else none

theorem c4_correction_isolates_witness :
    fieldsWithEdits exFields [("amount_numeric", "5.00")] "date" =
      exFields "date" :=
  (c4_correction_isolates exFields [("amount_numeric", "5.00")] "date").1
    (by decide)

/-- A JS value thrown by a failing request, as the error utilities see it:
`isError` says whether the value is an `Error` instance (all non-`Error`
values are treated alike by the source), `message` is its message. -/
structure ErrVal where
  isError : Bool
  message : String
deriving DecidableEq, Repr

/-- Helper for JS `String.prototype.includes`: list prefix test. -/
def isPrefixList : List Char → List Char → Bool
  | [], _ => true
  | _ :: _, [] => false
  | p :: ps, h :: hs => p == h && isPrefixList ps hs

/-- Helper for JS `String.prototype.includes`: substring occurrence. -/
def containsList (pat : List Char) : List Char → Bool
  | [] => pat.isEmpty
  | c :: rest => isPrefixList pat (c :: rest) || containsList pat rest

/-- Embeds JS `hay.includes(pat)`. -/
def includes (hay pat : String) : Bool := containsList pat.data hay.data

/-- Embeds JS `toLowerCase()` as the characterwise `Char.toLower` map (the
messages involved are ASCII). -/
def toLowerStr (s : String) : String := ⟨s.data.map Char.toLower⟩

/-- Embeds `getErrorMessage` from the error-handling utility module (the
source binds `const message = error.message.toLowerCase()`; it is inlined
here). -/
def getErrorMessage (e : ErrVal) : String :=
  if !e.isError then "An unexpected error occurred. Please try again."
  else if includes (toLowerStr e.message) "failed to fetch" ||
      includes (toLowerStr e.message) "network" then
    "Connection lost. Please check your internet connection and try again."
  else if includes (toLowerStr e.message) "timeout" then
    "Request timed out. The server is taking too long to respond."
  else if includes (toLowerStr e.message) "upload failed" then
    if includes (toLowerStr e.message) "413" ||
        includes (toLowerStr e.message) "too large" then
      "File is too large. Maximum size is 20MB per file."
    else if includes (toLowerStr e.message) "415" ||
        includes (toLowerStr e.message) "unsupported" then
      "Unsupported file type. Please upload JPG, PNG, TIFF, or ZIP files."
    else if includes (toLowerStr e.message) "400" then
      "Invalid file format. Please check your files and try again."
    else "Upload failed. Please try again."
  else if includes (toLowerStr e.message) "finalize failed" then
    "Failed to complete batch processing. Please try again."
  else if includes (toLowerStr e.message) "export failed" then
    "Failed to generate Excel file. Please try again."
  else if includes (toLowerStr e.message) "500" ||
      includes (toLowerStr e.message) "502" ||
      includes (toLowerStr e.message) "503" then
    "Server error. Please try again in a few moments."
  else if includes (toLowerStr e.message) "404" then
    "Resource not found. Please refresh the page."
  else "Error: " ++ e.message

/-- Embeds `shouldRetry` from the error-handling utility module. -/
def shouldRetry (e : ErrVal) : Bool :=
  if !e.isError then false
  else if includes (toLowerStr e.message) "failed to fetch" ||
      includes (toLowerStr e.message) "network" then
    true
  else if includes (toLowerStr e.message) "timeout" then true
  else if includes (toLowerStr e.message) "500" ||
      includes (toLowerStr e.message) "502" ||
      includes (toLowerStr e.message) "503" then
    true
  else false

/-- C10: `getErrorMessage` is total and never empty — every branch returns a
non-empty string — and every non-`Error` input yields exactly the generic
fallback message. -/
theorem c10_error_message_total (e : ErrVal) :
    getErrorMessage e ≠ "" ∧
    (e.isError = false →
      getErrorMessage e = "An unexpected error occurred. Please try again.") := by
  constructor
  · unfold getErrorMessage
    split_ifs <;> try decide
    intro hcontra
    have hlen := congrArg String.length hcontra
    rw [String.length_append] at hlen
    have h7 : ("Error: ").length = 7 := rfl
    have h0 : ("").length = 0 := rfl
    rw [h7, h0] at hlen
    omega
  · intro h
    unfold getErrorMessage
    rw [h]
    rfl

theorem c10_error_message_total_witness :
    getErrorMessage { isError := false, message := "boom" } ≠ "" ∧
    getErrorMessage { isError := false, message := "boom" } =
      "An unexpected error occurred. Please try again." :=
  ⟨(c10_error_message_total { isError := false, message := "boom" }).1,
   (c10_error_message_total { isError := false, message := "boom" }).2 rfl⟩

/-- Result of a `retryWithBackoff` run: either the value returned by the
first successful attempt, or the thrown value — `none` standing for the JS
`undefined` that is thrown when the loop body never ran. -/
inductive RetryOutcome (T : Type) where
  | ok (t : T)
  | thrown (e : Option ErrVal)
deriving DecidableEq, Repr

/-- Whether an attempt's outcome is a retryable failure. -/
def retryableErr {T : Type} : Except ErrVal T → Bool
  | Except.error e => shouldRetry e
  | Except.ok _ => false

/-- Embeds the retry loop of `retryWithBackoff`.  The effectful `fn` is
modelled as the sequence of its attempts' outcomes, indexed by attempt
number; `fuel` counts remaining attempts, `calls` attempts already made.
The second component of the result counts how often `fn` was invoked.
The exponential-backoff sleep is pure time and is not modelled. -/
def retryGo {T : Type} (fn : Nat → Except ErrVal T) :
    Nat → Nat → Option ErrVal → RetryOutcome T × Nat
  | 0, calls, lastError => (RetryOutcome.thrown lastError, calls)
  | fuel + 1, calls, _ =>
    match fn calls with
    | Except.ok t => (RetryOutcome.ok t, calls + 1)
    | Except.error e =>
      if shouldRetry e then retryGo fn fuel (calls + 1) (some e)
      else (RetryOutcome.thrown (some e), calls + 1)

/-- Embeds `retryWithBackoff(fn, maxRetries = 3, initialDelay = 1000)`. -/
def retryWithBackoff {T : Type} (fn : Nat → Except ErrVal T)
    (maxRetries : Nat) (_initialDelay : ℚ) : RetryOutcome T × Nat :=
  retryGo fn maxRetries 0 none

theorem retryGo_step_ok {T : Type} (fn : Nat → Except ErrVal T)
    (f calls : Nat) (last : Option ErrVal) (t : T)
    (he : fn calls = Except.ok t) :
    retryGo fn (f + 1) calls last = (RetryOutcome.ok t, calls + 1) := by
  simp [retryGo, he]

theorem retryGo_step_retry {T : Type} (fn : Nat → Except ErrVal T)
    (f calls : Nat) (last : Option ErrVal) (e : ErrVal)
    (he : fn calls = Except.error e) (hr : shouldRetry e = true) :
    retryGo fn (f + 1) calls last = retryGo fn f (calls + 1) (some e) := by
  simp [retryGo, he, hr]

theorem retryGo_step_throw {T : Type} (fn : Nat → Except ErrVal T)
    (f calls : Nat) (last : Option ErrVal) (e : ErrVal)
    (he : fn calls = Except.error e) (hr : shouldRetry e = false) :
    retryGo fn (f + 1) calls last =
      (RetryOutcome.thrown (some e), calls + 1) := by
  simp [retryGo, he, hr]

theorem retryGo_calls_le {T : Type} (fn : Nat → Except ErrVal T) :
    ∀ (fuel calls : Nat) (last : Option ErrVal),
      (retryGo fn fuel calls last).2 ≤ calls + fuel := by
  intro fuel
  induction fuel with
  | zero => intro calls last; simp [retryGo]
  | succ f ih =>
    intro calls last
    cases he : fn calls with
    | ok t =>
      rw [retryGo_step_ok fn f calls last t he]
      show calls + 1 ≤ calls + (f + 1)
      omega
    | error e =>
      cases hr : shouldRetry e with
      | true =>
        rw [retryGo_step_retry fn f calls last e he hr]
        have := ih (calls + 1) (some e)
        omega
      | false =>
        rw [retryGo_step_throw fn f calls last e he hr]
        show calls + 1 ≤ calls + (f + 1)
        omega

theorem retryGo_first_success {T : Type} (fn : Nat → Except ErrVal T) :
    ∀ (k fuel calls : Nat) (last : Option ErrVal) (t : T),
      k < fuel →
      (∀ j, j < k → retryableErr (fn (calls + j)) = true) →
      fn (calls + k) = Except.ok t →
      retryGo fn fuel calls last = (RetryOutcome.ok t, calls + k + 1) := by
  intro k
  induction k with
  | zero =>
    intro fuel calls last t hk _ hok
    obtain ⟨f, rfl⟩ : ∃ f, fuel = f + 1 := ⟨fuel - 1, by omega⟩
    rw [Nat.add_zero] at hok
    rw [retryGo_step_ok fn f calls last t hok, Nat.add_zero]
  | succ k ih =>
    intro fuel calls last t hk hpre hok
    obtain ⟨f, rfl⟩ : ∃ f, fuel = f + 1 := ⟨fuel - 1, by omega⟩
    have h0 : retryableErr (fn calls) = true := by
      have := hpre 0 (by omega)
      rwa [Nat.add_zero] at this
    cases he : fn calls with
    | ok t0 => rw [he] at h0; simp [retryableErr] at h0
    | error e0 =>
      rw [he] at h0
      simp only [retryableErr] at h0
      rw [retryGo_step_retry fn f calls last e0 he h0]
      have hpre2 : ∀ j, j < k → retryableErr (fn (calls + 1 + j)) = true := by
        intro j hj
        have := hpre (j + 1) (by omega)
        rwa [show calls + (j + 1) = calls + 1 + j by omega] at this
      have hok2 : fn (calls + 1 + k) = Except.ok t := by
        rwa [show calls + 1 + k = calls + (k + 1) by omega]
      rw [ih f (calls + 1) (some e0) t (by omega) hpre2 hok2]
      rw [show calls + 1 + k + 1 = calls + (k + 1) + 1 by omega]

theorem retryGo_nonretryable {T : Type} (fn : Nat → Except ErrVal T) :
    ∀ (k fuel calls : Nat) (last : Option ErrVal) (e : ErrVal),
      k < fuel →
      (∀ j, j < k → retryableErr (fn (calls + j)) = true) →
      fn (calls + k) = Except.error e → shouldRetry e = false →
      retryGo fn fuel calls last =
        (RetryOutcome.thrown (some e), calls + k + 1) := by
  intro k
  induction k with
  | zero =>
    intro fuel calls last e hk _ herr hnr
    obtain ⟨f, rfl⟩ : ∃ f, fuel = f + 1 := ⟨fuel - 1, by omega⟩
    rw [Nat.add_zero] at herr
    rw [retryGo_step_throw fn f calls last e herr hnr, Nat.add_zero]
  | succ k ih =>
    intro fuel calls last e hk hpre herr hnr
    obtain ⟨f, rfl⟩ : ∃ f, fuel = f + 1 := ⟨fuel - 1, by omega⟩
    have h0 : retryableErr (fn calls) = true := by
      have := hpre 0 (by omega)
      rwa [Nat.add_zero] at this
    cases he : fn calls with
    | ok t0 => rw [he] at h0; simp [retryableErr] at h0
    | error e0 =>
      rw [he] at h0
      simp only [retryableErr] at h0
      rw [retryGo_step_retry fn f calls last e0 he h0]
      have hpre2 : ∀ j, j < k → retryableErr (fn (calls + 1 + j)) = true := by
        intro j hj
        have := hpre (j + 1) (by omega)
        rwa [show calls + (j + 1) = calls + 1 + j by omega] at this
      have herr2 : fn (calls + 1 + k) = Except.error e := by
        rwa [show calls + 1 + k = calls + (k + 1) by omega]
      rw [ih f (calls + 1) (some e0) e (by omega) hpre2 herr2 hnr]
      rw [show calls + 1 + k + 1 = calls + (k + 1) + 1 by omega]

theorem retryGo_exhaust {T : Type} (fn : Nat → Except ErrVal T) :
    ∀ (fuel calls : Nat) (last : Option ErrVal) (e : ErrVal),
      1 ≤ fuel →
      (∀ j, j < fuel → retryableErr (fn (calls + j)) = true) →
      fn (calls + (fuel - 1)) = Except.error e →
      retryGo fn fuel calls last =
        (RetryOutcome.thrown (some e), calls + fuel) := by
  intro fuel
  induction fuel with
  | zero => intro _ _ _ h; omega
  | succ f ih =>
    intro calls last e _ hall hlasterr
    have h0 : retryableErr (fn calls) = true := by
      have := hall 0 (by omega)
      rwa [Nat.add_zero] at this
    cases he : fn calls with
    | ok t0 => rw [he] at h0; simp [retryableErr] at h0
    | error e0 =>
      rw [he] at h0
      simp only [retryableErr] at h0
      rcases Nat.eq_zero_or_pos f with hf0 | hfpos
      · subst hf0
        have hlast : fn calls = Except.error e := by
          rwa [show calls + (0 + 1 - 1) = calls by omega] at hlasterr
        have hee : e0 = e := by
          rw [he] at hlast
          exact Except.error.inj hlast
        subst hee
        rw [retryGo_step_retry fn 0 calls last e0 he h0]
        simp [retryGo]
      · rw [retryGo_step_retry fn f calls last e0 he h0]
        have hall2 : ∀ j, j < f → retryableErr (fn (calls + 1 + j)) = true := by
          intro j hj
          have := hall (j + 1) (by omega)
          rwa [show calls + (j + 1) = calls + 1 + j by omega] at this
        have hlast2 : fn (calls + 1 + (f - 1)) = Except.error e := by
          rwa [show calls + (f + 1 - 1) = calls + 1 + (f - 1) by omega]
            at hlasterr
        rw [ih (calls + 1) (some e0) e hfpos hall2 hlast2]
        rw [show calls + 1 + f = calls + (f + 1) by omega]

/-- C6: `retryWithBackoff` invokes `fn` at most `maxRetries` times; it
returns the result of the first successful attempt; an attempt failing with
a non-retryable value (any non-`Error`, or a client error, per
`shouldRetry`) is thrown at once with no further invocation; and when every
attempt fails with a retryable error, the last observed error is thrown
after exactly `maxRetries` attempts. -/
theorem c6_retry_bounded {T : Type} (fn : Nat → Except ErrVal T)
    (maxRetries : Nat) (initialDelay : ℚ) :
    ((retryWithBackoff fn maxRetries initialDelay).2 ≤ maxRetries) ∧
    (∀ k t, k < maxRetries →
      (∀ j, j < k → retryableErr (fn j) = true) →
      fn k = Except.ok t →
      retryWithBackoff fn maxRetries initialDelay =
        (RetryOutcome.ok t, k + 1)) ∧
    (∀ k e, k < maxRetries →
      (∀ j, j < k → retryableErr (fn j) = true) →
      fn k = Except.error e → shouldRetry e = false →
      retryWithBackoff fn maxRetries initialDelay =
        (RetryOutcome.thrown (some e), k + 1)) ∧
    (∀ e, 1 ≤ maxRetries →
      (∀ j, j < maxRetries → retryableErr (fn j) = true) →
      fn (maxRetries - 1) = Except.error e →
      retryWithBackoff fn maxRetries initialDelay =
        (RetryOutcome.thrown (some e), maxRetries)) := by
  refine ⟨?_, ?_, ?_, ?_⟩
  · have := retryGo_calls_le fn maxRetries 0 none
    simpa [retryWithBackoff] using this
  · intro k t hk hpre hok
    have := retryGo_first_success fn k maxRetries 0 none t hk
      (by simpa using hpre) (by simpa using hok)
    simpa [retryWithBackoff] using this
  · intro k e hk hpre herr hnr
    have := retryGo_nonretryable fn k maxRetries 0 none e hk
      (by simpa using hpre) (by simpa using herr) hnr
    simpa [retryWithBackoff] using this
  · intro e hmr hall hlast
    have := retryGo_exhaust fn maxRetries 0 none e hmr
      (by simpa using hall) (by simpa using hlast)
    simpa [retryWithBackoff] using this

/-- A retryable network error, then success: instantiates the retry theorem. -/
def fnRetryEx : Nat → Except ErrVal Nat := fun j =>
  if j = 0 then Except.error { isError := true, message := "Network error" }
  else Except.ok 42

theorem c6_retry_bounded_witness :
    retryWithBackoff fnRetryEx 3 (mkRat 1000 1) = (RetryOutcome.ok 42, 2) :=
  (c6_retry_bounded fnRetryEx 3 (mkRat 1000 1)).2.1 1 42 (by decide)
    (by decide) (by rfl)

/-- The zero-width and bidirectional control characters stripped by the
display normalization in `ReviewFields.tsx` and `[chequeId].tsx`, from the
regex `[\u200B\u200C\u200E\u200F\u202A-\u202E\u2066-\u2069]`. -/
def isStrippedControl (c : Char) : Bool :=
  c == '\u200B' || c == '\u200C' || c == '\u200E' || c == '\u200F' ||
  ('\u202A' ≤ c && c ≤ '\u202E') || ('\u2066' ≤ c && c ≤ '\u2069')

/-- Embeds the `.replace(/[...]/g, ligature-free empty string)` step of
`norm`: drop every stripped control character. -/
def stripControls (s : List Char) : List Char :=
  s.filter (fun c => !isStrippedControl c)

/-- Modelled from the spec: the source calls the host
`String.prototype.normalize('NFKC')`, whose implementation (Unicode
UAX #15) is not part of this repository.  Canonical combining class,
tabulated for the characters exercised below: COMBINING ACUTE ACCENT
U+0301 has class 230; the letters and the stripped controls are starters
(class 0). -/
def ccc (c : Char) : Nat := if c == '\u0301' then 230 else 0

/-- Modelled from the spec: Unicode decomposition-mapping fragment — LATIN
SMALL LETTER A WITH ACUTE U+00E1 canonically decomposes to `a` followed by
U+0301; the other characters used below (a, U+0301, and the stripped
controls) have no decomposition. -/
def decompMap (c : Char) : List Char :=
  if c == '\u00E1' then ['a', '\u0301'] else [c]

/-- Modelled from the spec: Unicode primary-composite fragment — `a`
composes with U+0301 to U+00E1; no other pair of the characters used below
composes. -/
def primaryComposite (l c : Char) : Option Char :=
  if l == 'a' && c == '\u0301' then some '\u00E1' else none

/-- One exchange pass of the UAX #15 canonical-ordering step, carrying the
current head: adjacent characters are exchanged when `ccc a > ccc b > 0`. -/
def reorderPass : Char → List Char → List Char
  | a, [] => [a]
  | a, b :: rest =>
    if 0 < ccc b && ccc b < ccc a then b :: reorderPass a rest
    else a :: reorderPass b rest

/-- One whole exchange pass over a string. -/
def reorderStep : List Char → List Char
  | [] => []
  | a :: rest => reorderPass a rest

/-- The UAX #15 canonical-ordering step (enough exchange passes to sort). -/
def canonicalOrder (s : List Char) : List Char := reorderStep^[s.length] s

/-- The UAX #15 canonical-composition pass: `starter` is the last starter
seen, `acc` holds (reversed) the combining marks since it.  A non-starter
composes with the last starter unless an intervening mark of greater or
equal combining class blocks it; a starter composes only when immediately
adjacent. -/
def composeGo (starter : Char) (acc : List Char) : List Char → List Char
  | [] => starter :: acc.reverse
  | c :: rest =>
    if ccc c == 0 then
      match (if acc.isEmpty then primaryComposite starter c else none) with
      | some comp => composeGo comp acc rest
      | none => starter :: acc.reverse ++ composeGo c [] rest
    else if acc.all (fun b => ccc b < ccc c) then
      match primaryComposite starter c with
      | some comp => composeGo comp acc rest
      | none => composeGo starter (c :: acc) rest
    else composeGo starter (c :: acc) rest

/-- Composition over a whole string: characters before the first starter
are emitted unchanged. -/
def composeAll : List Char → List Char
  | [] => []
  | c :: rest =>
    if ccc c == 0 then composeGo c [] rest else c :: composeAll rest

/-- Modelled from the spec: NFKC over the tabulated fragment — decompose,
reorder canonically, recompose (UAX #15). -/
def nfkc (s : List Char) : List Char :=
  composeAll (canonicalOrder (List.flatten (s.map decompMap)))

/-- Embeds `norm` of `ReviewFields.tsx` (also the `normalizedSelectedValue`
memo of `[chequeId].tsx`): NFKC normalization followed by stripping the
zero-width/bidi controls, with NFKC taken from the modelled fragment. -/
def norm (s : List Char) : List Char := stripControls (nfkc s)

/-- The probe string `a`, ZERO WIDTH NON-JOINER U+200C, COMBINING ACUTE
U+0301: NFKC leaves it unchanged (the ZWNJ blocks composition), stripping
then removes the ZWNJ — and a second normalization composes the newly
adjacent pair to U+00E1. -/
def zwnjProbe : List Char := ['a', '\u200C', '\u0301']

/-- C8 counterexample: the display normalization is not idempotent —
normalizing the probe twice gives a different string than normalizing it
once, because stripping a zero-width control can expose a new canonical
composition. -/
theorem c8_counterexample : norm (norm zwnjProbe) ≠ norm zwnjProbe := by
  decide

/-- C8 (amended): the control-stripping step by itself is idempotent, but
the composite normalization is not: `norm` maps the probe to `a` + U+0301,
and a second application composes that pair to U+00E1. -/
theorem c8_strip_idempotent_norm_not :
    (∀ s : List Char, stripControls (stripControls s) = stripControls s) ∧
    norm zwnjProbe = ['a', '\u0301'] ∧
    norm (norm zwnjProbe) = ['\u00E1'] := by
  refine ⟨fun s => ?_, by decide, by decide⟩
  simp [stripControls, List.filter_filter]

/-- Embeds `QueueItem` of `frontend-headoffice/src/utils/storage.ts`. -/
structure QueueItem where
  bank : String
  file : String
  reviewUrl : String
deriving DecidableEq, Repr

/-- The browser `localStorage`, modelled as an association list of string
keys and values; later writes shadow earlier ones. -/
abbrev Store := List (String × String)

/-- Embeds `localStorage.setItem`. -/
def setItem (st : Store) (k v : String) : Store := (k, v) :: st

/-- Embeds `localStorage.getItem`; `none` is the JS `null`. -/
def getItem (st : Store) (k : String) : Option String :=
  (st.find? (fun p => p.1 == k)).map (fun p => p.2)

/-- Embeds `localStorage.removeItem`. -/
def removeItem (st : Store) (k : String) : Store :=
  st.filter (fun p => p.1 != k)

/-- A hexadecimal digit as `JSON.stringify` renders it (lowercase). -/
def hexDigit (n : Nat) : Char :=
  if n < 10 then Char.ofNat (48 + n) else Char.ofNat (87 + n)

/-- Modelled from the spec: the string escaping of the ECMAScript
`JSON.stringify` (QuoteJSONString), which is not part of this repository:
quote and backslash are backslash-escaped, the five named control
characters use their short escapes, the remaining control characters use
`\u00xx`, and every other character is emitted as itself. -/
def escapeChar (c : Char) : List Char :=
  if c == '"' then ['\\', '"']
  else if c == '\\' then ['\\', '\\']
  else if c == '\x08' then ['\\', 'b']
  else if c == '\t' then ['\\', 't']
  else if c == '\n' then ['\\', 'n']
  else if c == '\x0C' then ['\\', 'f']
  else if c == '\r' then ['\\', 'r']
  else if c.toNat < 32 then
    ['\\', 'u', '0', '0', hexDigit (c.toNat / 16), hexDigit (c.toNat % 16)]
  else [c]

/-- The escaped body of a JSON string. -/
def escBody (s : List Char) : List Char := (s.map escapeChar).flatten

/-- The literal opening a stringified queue item, up to the first value. -/
def litStart : List Char := "\x7b\"bank\":\"".data

/-- The literal between the first and second values. -/
def litMid1 : List Char := ",\"file\":\"".data

/-- The literal between the second and third values. -/
def litMid2 : List Char := ",\"reviewUrl\":\"".data

/-- Modelled from the spec: `JSON.stringify` of one queue item (object keys
in declaration order `bank`, `file`, `reviewUrl`; no whitespace). -/
def encodeItem (q : QueueItem) : List Char :=
  litStart ++ (escBody q.bank.data ++ ('"' :: (litMid1 ++ (escBody q.file.data
    ++ ('"' :: (litMid2 ++ (escBody q.reviewUrl.data
      ++ ('"' :: ['\x7d']))))))))

/-- The comma-separated encoded item sequence. -/
def encodeItemsSep : List QueueItem → List Char
  | [] => []
  | [q] => encodeItem q
  | q :: q2 :: rest => encodeItem q ++ (',' :: encodeItemsSep (q2 :: rest))

/-- Modelled from the spec: `JSON.stringify` of the whole queue array. -/
def stringifyQueue (items : List QueueItem) : String :=
  ⟨'[' :: (encodeItemsSep items ++ [']'])⟩

/-- The numeric value of a JSON hexadecimal digit. -/
def parseHexDigit (c : Char) : Option Nat :=
  if '0' ≤ c && c ≤ '9' then some (c.toNat - 48)
  else if 'a' ≤ c && c ≤ 'f' then some (c.toNat - 87)
  else if 'A' ≤ c && c ≤ 'F' then some (c.toNat - 55)
  else none

/-- Modelled from the spec: one JSON string escape, after the backslash. -/
def parseEscape : List Char → Option (Char × List Char)
  | '"' :: r => some ('"', r)
  | '\\' :: r => some ('\\', r)
  | '/' :: r => some ('/', r)
  | 'b' :: r => some ('\x08', r)
  | 'f' :: r => some ('\x0C', r)
  | 'n' :: r => some ('\n', r)
  | 'r' :: r => some ('\r', r)
  | 't' :: r => some ('\t', r)
  | 'u' :: h1 :: h2 :: h3 :: h4 :: r2 =>
    match parseHexDigit h1, parseHexDigit h2, parseHexDigit h3,
        parseHexDigit h4 with
    | some a, some b, some c2, some d =>
      some (Char.ofNat (((a * 16 + b) * 16 + c2) * 16 + d), r2)
    | _, _, _, _ => none
  | _ => none

/-- Modelled from the spec: a JSON string body (after the opening quote) up
to and including the closing quote; `fuel` bounds the recursion depth. -/
def parseJStringBody : Nat → List Char → Option (List Char × List Char)
  | 0, _ => none
  | _ + 1, [] => none
  | fuel + 1, c :: rest =>
    if c == '"' then some ([], rest)
    else if c == '\\' then
      match parseEscape rest with
      | none => none
      | some cr =>
        (parseJStringBody fuel cr.2).map (fun p => (cr.1 :: p.1, p.2))
    else (parseJStringBody fuel rest).map (fun p => (c :: p.1, p.2))

/-- Consumes an exact literal prefix. -/
def expectLit : List Char → List Char → Option (List Char)
  | [], l => some l
  | _ :: _, [] => none
  | t :: ts, c :: cs => if c == t then expectLit ts cs else none

/-- Modelled from the spec: `JSON.parse` of one queue-item object of the
exact shape the uploader stores. -/
def parseQItem (fuel : Nat) (l : List Char) : Option (QueueItem × List Char) :=
  match expectLit litStart l with
  | none => none
  | some l1 =>
    match parseJStringBody fuel l1 with
    | none => none
    | some (bank, l2) =>
      match expectLit litMid1 l2 with
      | none => none
      | some l3 =>
        match parseJStringBody fuel l3 with
        | none => none
        | some (file, l4) =>
          match expectLit litMid2 l4 with
          | none => none
          | some l5 =>
            match parseJStringBody fuel l5 with
            | none => none
            | some (url, l6) =>
              match expectLit ['\x7d'] l6 with
              | none => none
              | some l7 =>
                some ({ bank := ⟨bank⟩, file := ⟨file⟩,
                        reviewUrl := ⟨url⟩ }, l7)

/-- The comma-separated item sequence, ending with the closing bracket at
the end of the input. -/
def parseItemsLoop (fuel : Nat) : Nat → List Char → Option (List QueueItem)
  | 0, _ => none
  | n + 1, l =>
    match parseQItem fuel l with
    | none => none
    | some (q, r) =>
      match r with
      | [']'] => some [q]
      | ',' :: r2 => (parseItemsLoop fuel n r2).map (fun qs => q :: qs)
      | _ => none

/-- Modelled from the spec: `JSON.parse` restricted to arrays of queue
items, consuming the entire string. -/
def parseQueue (s : String) : Option (List QueueItem) :=
  match s.data with
  | '[' :: rest =>
    if rest == [']'] then some []
    else parseItemsLoop (s.length + 1) (s.length + 1) rest
  | _ => none

/-- Embeds `saveQueue` of `storage.ts`: stores the JSON of `items` under
`uploadQueue:<id>` and the item count under `uploadQueue:<id>:total`. -/
def saveQueue (st : Store) (correlationId : String)
    (items : List QueueItem) : Store :=
  setItem
    (setItem st ("uploadQueue:" ++ correlationId) (stringifyQueue items))
    ("uploadQueue:" ++ correlationId ++ ":total") (toString items.length)

/-- Embeds `getQueue` of `storage.ts` (`data ? JSON.parse(data) : []`): a
missing key — or a JS-falsy empty string — yields the empty queue; `none`
models a `JSON.parse` exception, which cannot occur on data written by
`saveQueue`. -/
def getQueue (st : Store) (correlationId : String) :
    Option (List QueueItem) :=
  match getItem st ("uploadQueue:" ++ correlationId) with
  | none => some []
  | some data => if data == "" then some [] else parseQueue data

/-- Embeds `clearQueue` of `storage.ts`. -/
def clearQueue (st : Store) (correlationId : String) : Store :=
  removeItem (removeItem st ("uploadQueue:" ++ correlationId))
    ("uploadQueue:" ++ correlationId ++ ":total")

theorem string_eta (s : String) : String.mk s.data = s := by
  cases s
  rfl

theorem expectLit_append (tok : List Char) :
    ∀ rest : List Char, expectLit tok (tok ++ rest) = some rest := by
  induction tok with
  | nil => intro rest; rfl
  | cons t ts ih => intro rest; simp [List.cons_append, expectLit, ih]

theorem parseBody_step (c : Char) (tail : List Char) (fuel : Nat) :
    parseJStringBody (fuel + 1) (escapeChar c ++ tail) =
      (parseJStringBody fuel tail).map (fun p => (c :: p.1, p.2)) := by
  by_cases h1 : c = '"'
  · subst h1; rfl
  · by_cases h2 : c = '\\'
    · subst h2; rfl
    · by_cases h3 : c.toNat < 32
      · obtain ⟨n, hlt, rfl⟩ : ∃ n, n < 32 ∧ Char.ofNat n = c :=
          ⟨c.toNat, h3, Char.ofNat_toNat c⟩
        interval_cases n <;> rfl
      · have hne : ∀ d : Char, d.toNat < 32 → c ≠ d := by
          intro d hd hcd
          exact h3 (hcd ▸ hd)
        have e : escapeChar c = [c] := by
          unfold escapeChar
          rw [if_neg (by simp only [beq_iff_eq]; exact h1),
              if_neg (by simp only [beq_iff_eq]; exact h2),
              if_neg (by simp only [beq_iff_eq]; exact hne '\x08' (by decide)),
              if_neg (by simp only [beq_iff_eq]; exact hne '\t' (by decide)),
              if_neg (by simp only [beq_iff_eq]; exact hne '\n' (by decide)),
              if_neg (by simp only [beq_iff_eq]; exact hne '\x0C' (by decide)),
              if_neg (by simp only [beq_iff_eq]; exact hne '\r' (by decide)),
              if_neg h3]
        rw [e, List.singleton_append]
        simp only [parseJStringBody]
        rw [if_neg (by simp only [beq_iff_eq]; exact h1),
            if_neg (by simp only [beq_iff_eq]; exact h2)]

theorem parseBody_escBody (s : List Char) :
    ∀ (fuel : Nat) (rest : List Char), s.length < fuel →
      parseJStringBody fuel (escBody s ++ '"' :: rest) = some (s, rest) := by
  induction s with
  | nil =>
    intro fuel rest hf
    obtain ⟨f, rfl⟩ : ∃ f, fuel = f + 1 := ⟨fuel - 1, by omega⟩
    rfl
  | cons c cs ih =>
    intro fuel rest hf
    obtain ⟨f, rfl⟩ : ∃ f, fuel = f + 1 := ⟨fuel - 1, by omega⟩
    have hshape : escBody (c :: cs) ++ '"' :: rest
        = escapeChar c ++ (escBody cs ++ '"' :: rest) := by
      simp [escBody, List.append_assoc]
    rw [hshape, parseBody_step c (escBody cs ++ '"' :: rest) f,
      ih f rest (by simpa using hf)]
    rfl

theorem expectLit_brace (rest : List Char) :
    expectLit ['\x7d'] ('\x7d' :: rest) = some rest := rfl

theorem parseQItem_encode (q : QueueItem) (fuel : Nat) (rest : List Char)
    (hb : q.bank.data.length < fuel) (hf : q.file.data.length < fuel)
    (hu : q.reviewUrl.data.length < fuel) :
    parseQItem fuel (encodeItem q ++ rest) = some (q, rest) := by
  simp only [encodeItem, List.append_assoc, List.cons_append,
    List.nil_append]
  simp only [parseQItem, expectLit_append, hb, hf, hu, expectLit_brace,
    parseBody_escBody q.bank.data fuel, parseBody_escBody q.file.data fuel,
    parseBody_escBody q.reviewUrl.data fuel, string_eta]

theorem parseItemsLoop_encode (items : List QueueItem) :
    ∀ (fuel n : Nat), items ≠ [] → items.length ≤ n →
      (∀ q ∈ items, q.bank.data.length < fuel ∧ q.file.data.length < fuel ∧
        q.reviewUrl.data.length < fuel) →
      parseItemsLoop fuel n (encodeItemsSep items ++ [']']) = some items := by
  induction items with
  | nil => intro _ _ h; exact absurd rfl h
  | cons q qs ih =>
    intro fuel n _ hn hlen
    obtain ⟨m, rfl⟩ : ∃ m, n = m + 1 := ⟨n - 1, by simp at hn; omega⟩
    obtain ⟨hb, hf, hu⟩ := hlen q (List.mem_cons_self q qs)
    cases qs with
    | nil =>
      simp only [encodeItemsSep, parseItemsLoop,
        parseQItem_encode q fuel [']'] hb hf hu]
    | cons q2 rest =>
      simp only [encodeItemsSep, List.append_assoc, List.cons_append]
      simp only [parseItemsLoop,
        parseQItem_encode q fuel
          (',' :: (encodeItemsSep (q2 :: rest) ++ [']'])) hb hf hu]
      rw [ih fuel m (by simp) (by simp at hn ⊢; omega)
        (fun q' hq' => hlen q' (List.mem_cons_of_mem _ hq'))]
      rfl

theorem escapeChar_len (c : Char) : 1 ≤ (escapeChar c).length := by
  unfold escapeChar
  split_ifs <;> simp

theorem escBody_len (s : List Char) : s.length ≤ (escBody s).length := by
  induction s with
  | nil => simp [escBody]
  | cons c cs ih =>
    have := escapeChar_len c
    simp only [escBody, List.map_cons, List.flatten_cons,
      List.length_append, List.length_cons] at *
    omega

theorem encodeItem_bounds (q : QueueItem) :
    q.bank.data.length < (encodeItem q).length ∧
    q.file.data.length < (encodeItem q).length ∧
    q.reviewUrl.data.length < (encodeItem q).length ∧
    1 ≤ (encodeItem q).length := by
  have hb := escBody_len q.bank.data
  have hf := escBody_len q.file.data
  have hu := escBody_len q.reviewUrl.data
  have l1 : litStart.length = 9 := rfl
  have l2 : litMid1.length = 9 := rfl
  have l3 : litMid2.length = 14 := rfl
  simp only [encodeItem, List.length_append, List.length_cons,
    List.length_singleton, l1, l2, l3]
  omega

theorem encodeItemsSep_mem_le (q : QueueItem) :
    ∀ items : List QueueItem, q ∈ items →
      (encodeItem q).length ≤ (encodeItemsSep items).length := by
  intro items
  induction items with
  | nil => intro h; cases h
  | cons q1 qs ih =>
    intro hq
    rcases List.mem_cons.mp hq with rfl | hmem
    · cases qs with
      | nil => simp [encodeItemsSep]
      | cons q2 rest =>
        simp only [encodeItemsSep, List.length_append, List.length_cons]
        omega
    · have h1 := ih hmem
      cases qs with
      | nil => cases hmem
      | cons q2 rest =>
        simp only [encodeItemsSep, List.length_append, List.length_cons]
        omega

theorem encodeItemsSep_count_le :
    ∀ items : List QueueItem,
      items.length ≤ (encodeItemsSep items).length := by
  intro items
  induction items with
  | nil => simp [encodeItemsSep]
  | cons q qs ih =>
    have hq := (encodeItem_bounds q).2.2.2
    cases qs with
    | nil => simpa [encodeItemsSep] using hq
    | cons q2 rest =>
      simp only [encodeItemsSep, List.length_append, List.length_cons] at *
      omega

theorem stringifyQueue_length (items : List QueueItem) :
    (stringifyQueue items).length = (encodeItemsSep items).length + 2 := by
  simp [stringifyQueue, String.length, List.length_append]

theorem parseQueue_stringify (items : List QueueItem) :
    parseQueue (stringifyQueue items) = some items := by
  cases items with
  | nil => rfl
  | cons q qs =>
    have hhead : ∃ t, encodeItemsSep (q :: qs) = '\x7b' :: t := by
      cases qs with
      | nil => exact ⟨_, rfl⟩
      | cons q2 rest => exact ⟨_, rfl⟩
    obtain ⟨t, ht⟩ := hhead
    have hdata : (stringifyQueue (q :: qs)).data
        = '[' :: (encodeItemsSep (q :: qs) ++ [']']) := rfl
    simp only [parseQueue, hdata]
    rw [ht]
    rw [if_neg (by simp)]
    rw [← ht]
    have hfuel : ∀ q' ∈ q :: qs,
        q'.bank.data.length < (stringifyQueue (q :: qs)).length + 1 ∧
        q'.file.data.length < (stringifyQueue (q :: qs)).length + 1 ∧
        q'.reviewUrl.data.length < (stringifyQueue (q :: qs)).length + 1 := by
      intro q' hq'
      have h1 := encodeItem_bounds q'
      have h2 := encodeItemsSep_mem_le q' (q :: qs) hq'
      have h3 := stringifyQueue_length (q :: qs)
      exact ⟨by omega, by omega, by omega⟩
    have hcount : (q :: qs).length ≤ (stringifyQueue (q :: qs)).length + 1 := by
      have h1 := encodeItemsSep_count_le (q :: qs)
      have h2 := stringifyQueue_length (q :: qs)
      omega
    exact parseItemsLoop_encode (q :: qs)
      ((stringifyQueue (q :: qs)).length + 1)
      ((stringifyQueue (q :: qs)).length + 1)
      (by simp) hcount hfuel

theorem append_total_ne (k : String) : ((k ++ ":total") == k) = false := by
  rw [beq_eq_false_iff_ne]
  intro h
  have hlen := congrArg String.length h
  rw [String.length_append] at hlen
  have h6 : (":total").length = 6 := rfl
  omega

theorem getItem_removeItem (st : Store) (k : String) :
    getItem (removeItem st k) k = none := by
  induction st with
  | nil => rfl
  | cons p rest ih =>
    cases h : (p.1 != k) with
    | false =>
      have hdrop : removeItem (p :: rest) k = removeItem rest k := by
        simp only [removeItem, List.filter, h]
      rw [hdrop]
      exact ih
    | true =>
      have hkeep : removeItem (p :: rest) k = p :: removeItem rest k := by
        simp only [removeItem, List.filter, h]
      have h2 : (p.1 == k) = false :=
        beq_eq_false_iff_ne.mpr (bne_iff_ne.mp h)
      rw [hkeep]
      simp only [getItem, List.find?, h2]
      simpa [getItem] using ih

theorem getItem_none_removeItem (st : Store) (k k2 : String)
    (h : getItem st k = none) : getItem (removeItem st k2) k = none := by
  induction st with
  | nil => rfl
  | cons p rest ih =>
    have hps : (p.1 == k) = false := by
      cases hb : (p.1 == k) with
      | false => rfl
      | true =>
        rw [show getItem (p :: rest) k = some p.2 from by
          simp [getItem, List.find?, hb]] at h
        exact Option.noConfusion h
    have hrest : getItem rest k = none := by
      simpa [getItem, List.find?, hps] using h
    cases h2 : (p.1 != k2) with
    | false =>
      have hdrop : removeItem (p :: rest) k2 = removeItem rest k2 := by
        simp only [removeItem, List.filter, h2]
      rw [hdrop]
      exact ih hrest
    | true =>
      have hkeep : removeItem (p :: rest) k2 = p :: removeItem rest k2 := by
        simp only [removeItem, List.filter, h2]
      rw [hkeep]
      simp only [getItem, List.find?, hps]
      simpa [getItem] using ih hrest

/-- C9: queue storage round-trips.  After `saveQueue id items`, `getQueue id`
parses back a list structurally equal to `items` (for every store state,
correlation id, and item list, including fields needing JSON escapes); after
`clearQueue id`, `getQueue id` yields the empty queue.  `some` marks that
`JSON.parse` ran without an exception. -/
theorem c9_queue_roundtrip (st : Store) (correlationId : String)
    (items : List QueueItem) :
    getQueue (saveQueue st correlationId items) correlationId
      = some items ∧
    getQueue (clearQueue st correlationId) correlationId = some [] := by
  constructor
  · have hne := append_total_ne ("uploadQueue:" ++ correlationId)
    simp only [getQueue, saveQueue, setItem, getItem, List.find?, hne,
      beq_self_eq_true, Option.map_some']
    have hnee : ¬((stringifyQueue items == "") = true) := by
      simp only [beq_iff_eq]
      intro he
      have hd := congrArg String.data he
      simp [stringifyQueue] at hd
    rw [if_neg hnee]
    exact parseQueue_stringify items
  · simp only [getQueue, clearQueue]
    rw [getItem_none_removeItem _ _ _
      (getItem_removeItem st ("uploadQueue:" ++ correlationId))]

end Ocr2
